import Mathlib

/-!
Shallow embedding of `christianschleifer/bitmaps-in-rust`.

The repository implements a growable bitmap `SimpleBitmap` backed by a
`Vec<u32>` (`src/src/simple_bitmap.rs`), with operations `set`, `get`
(trait `Bitmap`, `src/src/lib.rs`) and a union via the `BitOr` operator.

Modelling choices:
- A `u32` word is modelled as a `Nat`.  Every word stored by the code is
  obtained from `0` by `||| (1 <<< b)` with `b < 32` or by `|||` of two
  such words, so all words stay below `2^32` and no `u32` wrap-around can
  occur anywhere in the code; plain `Nat` arithmetic therefore coincides
  with the Rust `u32` arithmetic.
- The index argument (Rust `u32`) is modelled as a `Nat`; the only
  arithmetic on it is `index / 32` (the Rust cast `as usize` is lossless,
  `usize` is at least 32 bits on supported targets) and `index &&& 0b11111`,
  neither of which can overflow.
- `Vec<u32>` is modelled as `List Nat`; `Vec::resize(n, 0)` with
  `n > len` is appending `n - len` zeros.
-/

/-- The `SimpleBitmap` struct: `bits: Vec<u32>`. -/
structure SimpleBitmap where
  bits : List Nat
deriving DecidableEq, Repr

/-- `SimpleBitmap::new`: `Self { bits: Vec::new() }`. -/
def SimpleBitmap.new : SimpleBitmap := ⟨[]⟩

/-- `let u32_index_in_bits_vec = (index / 32) as usize;` -/
def word_position (index : Nat) : Nat := index / 32

/-- `let bit_index_in_u32 = index & 0b11111;` -/
def bit_position (index : Nat) : Nat := index &&& 0b11111

/-- `Bitmap::set` for `SimpleBitmap`: grow the word vector with zeros when
`u32_index_in_bits_vec` is out of bounds, then OR `1 << bit_index_in_u32`
into the addressed word. -/
def SimpleBitmap.set (bm : SimpleBitmap) (index : Nat) : SimpleBitmap :=
  let u32_index_in_bits_vec := word_position index
  let bit_index_in_u32 := bit_position index
  let bits :=
    if u32_index_in_bits_vec ≥ bm.bits.length then
      bm.bits ++ List.replicate (u32_index_in_bits_vec + 1 - bm.bits.length) 0
    else
      bm.bits
  let stored_u32 := bits.getD u32_index_in_bits_vec 0
  let modified_u32 := stored_u32 ||| (0b1 <<< bit_index_in_u32)
  ⟨bits.set u32_index_in_bits_vec modified_u32⟩

/-- `Bitmap::get` for `SimpleBitmap`: `self.bits.get(u32_index_in_bits_vec)`
returns `Some bucket` or `None`; in the latter case the result is `false`. -/
def SimpleBitmap.get (bm : SimpleBitmap) (index : Nat) : Bool :=
  let u32_index_in_bits_vec := word_position index
  match bm.bits[u32_index_in_bits_vec]? with
  | some bucket =>
      let bit_index_in_u32 := bit_position index
      ((bucket >>> bit_index_in_u32) &&& 0b1) == 1
  | none => false

/-- The loop structure of `BitOr::bitor`: `iter::zip(&mut left_iter,
&mut right_iter)` ORs pairwise while both iterators yield, then the two
leftover loops push the remaining words.  `Zip::next` advances the left
iterator first, so on the terminating call, when the right iterator is
exhausted while the left still has words, one left word has already been
consumed by `zip` and is dropped before the leftover loop runs: with a
strictly longer left operand, `left[len(right)]` is lost. -/
def bitorWords : List Nat → List Nat → List Nat
  | l :: ls, r :: rs => (l ||| r) :: bitorWords ls rs
  | [], rs => rs
  | _ :: ls, [] => ls

/-- `BitOr::bitor` for `SimpleBitmap`: `SimpleBitmap { bits: union }`. -/
def SimpleBitmap.bitor (a b : SimpleBitmap) : SimpleBitmap :=
  ⟨bitorWords a.bits b.bits⟩

/-! ### Basic facts about the addressing arithmetic -/

lemma bit_position_eq_mod (index : Nat) : bit_position index = index % 32 :=
  Nat.and_pow_two_sub_one_eq_mod index 5

lemma bit_position_lt (index : Nat) : bit_position index < 32 := by
  rw [bit_position_eq_mod]; exact Nat.mod_lt _ (by norm_num)

lemma word_position_mul_add (index : Nat) :
    index = word_position index * 32 + bit_position index := by
  rw [bit_position_eq_mod, word_position]
  omega

/-- Two distinct indices landing in the same word land on distinct bits. -/
lemma bit_position_ne (i j : Nat) (hij : i ≠ j)
    (hw : word_position i = word_position j) : bit_position i ≠ bit_position j := by
  intro hb
  exact hij (by rw [word_position_mul_add i, word_position_mul_add j, hw, hb])

/-! ### Characterizations of `get`, `set` and the union loop -/

/-- `get` only depends on the addressed word, with a missing word acting
as zero: it is the `testBit` of `bits.getD (word_position index) 0`. -/
lemma get_eq_testBit (bm : SimpleBitmap) (index : Nat) :
    bm.get index = (bm.bits.getD (word_position index) 0).testBit (bit_position index) := by
  rcases h : bm.bits[word_position index]? with _ | bucket
  · simp [SimpleBitmap.get, h, List.getD_eq_getElem?_getD, Nat.testBit]
  · simp [SimpleBitmap.get, h, List.getD_eq_getElem?_getD, Nat.testBit]

/-- The list the `set` body operates on after the (conditional) resize. -/
def grown (l : List Nat) (wp : Nat) : List Nat :=
  if wp ≥ l.length then l ++ List.replicate (wp + 1 - l.length) 0 else l

lemma set_bits_eq (bm : SimpleBitmap) (index : Nat) :
    (bm.set index).bits =
      (grown bm.bits (word_position index)).set (word_position index)
        ((grown bm.bits (word_position index)).getD (word_position index) 0 |||
          (1 <<< bit_position index)) := by
  simp only [SimpleBitmap.set, grown]

lemma grown_length (l : List Nat) (wp : Nat) :
    (grown l wp).length = max l.length (wp + 1) := by
  unfold grown
  split <;> simp <;> omega

lemma word_position_lt_grown_length (l : List Nat) (wp : Nat) :
    wp < (grown l wp).length := by
  rw [grown_length]; omega

/-- Growing appends only zeros, so the padded read `getD _ 0` is unchanged. -/
lemma grown_getD (l : List Nat) (wp n : Nat) :
    (grown l wp).getD n 0 = l.getD n 0 := by
  unfold grown
  split
  · rcases Nat.lt_or_ge n l.length with h | h
    · simp [List.getD_eq_getElem?_getD, List.getElem?_append, h]
    · simp only [List.getD_eq_getElem?_getD, List.getElem?_append_right h,
        List.getElem?_replicate, List.getElem?_eq_none h]
      split <;> rfl
  · rfl

lemma grown_getElem?_of_lt (l : List Nat) (wp n : Nat) (h : n < l.length) :
    (grown l wp)[n]? = l[n]? := by
  unfold grown
  split
  · simp [List.getElem?_append, h]
  · rfl

lemma set_bits_length (bm : SimpleBitmap) (index : Nat) :
    (bm.set index).bits.length = max bm.bits.length (word_position index + 1) := by
  rw [set_bits_eq, List.length_set, grown_length]

/-- Padded-read view of `set`: the addressed word gains the mask bit,
every other position (present or virtual) reads unchanged. -/
lemma set_bits_getD (bm : SimpleBitmap) (index n : Nat) :
    (bm.set index).bits.getD n 0 =
      if n = word_position index then
        bm.bits.getD n 0 ||| (1 <<< bit_position index)
      else bm.bits.getD n 0 := by
  rw [set_bits_eq]
  rcases Nat.decEq n (word_position index) with hne | heq
  · rw [if_neg hne]
    rw [List.getD_eq_getElem?_getD, List.getElem?_set_ne (Ne.symm hne),
      ← List.getD_eq_getElem?_getD, grown_getD]
  · subst heq
    rw [if_pos rfl, List.getD_eq_getElem?_getD,
      List.getElem?_set_eq_of_lt _ (word_position_lt_grown_length bm.bits (word_position index)),
      Option.getD_some, grown_getD]

lemma set_bits_getElem?_ne (bm : SimpleBitmap) (index n : Nat)
    (hne : n ≠ word_position index) (hlt : n < bm.bits.length) :
    (bm.set index).bits[n]? = bm.bits[n]? := by
  rw [set_bits_eq, List.getElem?_set_ne (Ne.symm hne),
    grown_getElem?_of_lt bm.bits (word_position index) n hlt]

/-- Setting an index makes its own bit read back `true`. -/
lemma get_set_self (bm : SimpleBitmap) (i : Nat) : (bm.set i).get i = true := by
  rw [get_eq_testBit, set_bits_getD, if_pos rfl, Nat.testBit_or,
    Nat.one_shiftLeft, Nat.testBit_two_pow_self, Bool.or_true]

/-- Setting an index leaves the presence of every other index unchanged. -/
lemma get_set_ne (bm : SimpleBitmap) (i j : Nat) (hij : j ≠ i) :
    (bm.set j).get i = bm.get i := by
  rw [get_eq_testBit, get_eq_testBit, set_bits_getD]
  rcases Nat.decEq (word_position i) (word_position j) with hne | heq
  · rw [if_neg hne]
  · rw [if_pos heq, Nat.testBit_or, Nat.one_shiftLeft,
      Nat.testBit_two_pow_of_ne (bit_position_ne j i hij heq.symm),
      Bool.or_false]

lemma SimpleBitmap.eq_of_bits (a b : SimpleBitmap) (h : a.bits = b.bits) : a = b := by
  cases a; cases b; simpa using h

lemma grown_of_lt (l : List Nat) (wp : Nat) (h : wp < l.length) : grown l wp = l := by
  unfold grown
  rw [if_neg (by omega)]

lemma getD_out (l : List Nat) (n : Nat) (h : l.length ≤ n) : l.getD n 0 = 0 := by
  simp [List.getD_eq_getElem?_getD, List.getElem?_eq_none h]

/-! ### Claim theorems -/

/-- Claim C1 states `get(union(a,b), i) = get(a,i) || get(b,i)` for all
operands and indices; the code violates it.  For the reachable operands
`a = new.set 32` (words `[0, 1]`) and `b = new.set 0` (words `[1]`),
`iter::zip` consumes and drops `a.bits[1]` on its terminating call, so
the union's words are `[1]` and `get(union(a,b), 32)` is `false` even
though `get(a,32) || get(b,32)` is `true`. -/
theorem C1_union_get_or_fails :
    ((SimpleBitmap.new.set 32).bitor (SimpleBitmap.new.set 0)).get 32 = false ∧
    ((SimpleBitmap.new.set 32).get 32 || (SimpleBitmap.new.set 0).get 32) = true := by
  decide

/-- Claim C2: after `set i`, `get i` is `true`, and it stays `true` after
any later `set j` with `j ≠ i`. -/
theorem C2_set_get_persistent (bm : SimpleBitmap) (i j : Nat) (hij : j ≠ i) :
    (bm.set i).get i = true ∧ ((bm.set i).set j).get i = true :=
  ⟨get_set_self bm i, by rw [get_set_ne (bm.set i) i j hij]; exact get_set_self bm i⟩

theorem C2_set_get_persistent_witness :
    (1 : Nat) ≠ 0 ∧
    ((SimpleBitmap.new.set 0).get 0 = true ∧
      ((SimpleBitmap.new.set 0).set 1).get 0 = true) :=
  ⟨by decide, C2_set_get_persistent SimpleBitmap.new 0 1 (by decide)⟩

/-- Claim C3: no operation fails: the shift amount in `set` is always
below 32, the vector access in `set` is in bounds after growth, and `get`
on an out-of-bounds word position returns `false` immediately (it is a
pure read: it neither grows storage nor errors). -/
theorem C3_no_failure (bm : SimpleBitmap) (index : Nat) :
    bit_position index < 32 ∧
    word_position index < (bm.set index).bits.length ∧
    (bm.bits.length ≤ word_position index → bm.get index = false) := by
  refine ⟨bit_position_lt index, ?_, ?_⟩
  · rw [set_bits_length]; omega
  · intro h
    rw [get_eq_testBit, List.getD_eq_getElem?_getD, List.getElem?_eq_none h]
    simp

theorem C3_no_failure_witness :
    bit_position 1000000 < 32 ∧
    word_position 1000000 < (SimpleBitmap.new.set 1000000).bits.length ∧
    SimpleBitmap.new.get 1000000 = false :=
  ⟨(C3_no_failure SimpleBitmap.new 1000000).1,
   (C3_no_failure SimpleBitmap.new 1000000).2.1,
   (C3_no_failure SimpleBitmap.new 1000000).2.2 (by decide)⟩

/-- Claim C4 states the union's word sequence has length `max` of the
operands' lengths, with the longer operand's tail copied unchanged; the
code violates it.  For the reachable operands `a = (new.set 0).set 33`
(words `[1, 2]`) and `b = new.set 2` (words `[4]`), the union's words
are `[5]`: `a.bits[1]` is consumed and dropped by `iter::zip`, so the
result has length `1`, not `max 2 1 = 2`, and the left tail is lost
rather than copied. -/
theorem C4_union_words_fails :
    (((SimpleBitmap.new.set 0).set 33).bitor (SimpleBitmap.new.set 2)).bits = [5] ∧
    ((SimpleBitmap.new.set 0).set 33).bits = [1, 2] ∧
    (SimpleBitmap.new.set 2).bits = [4] ∧
    ¬ ((((SimpleBitmap.new.set 0).set 33).bitor (SimpleBitmap.new.set 2)).bits.length =
        max ((SimpleBitmap.new.set 0).set 33).bits.length
          (SimpleBitmap.new.set 2).bits.length) := by
  decide

/-- Claim C5: `set` is idempotent: setting the same index twice leaves
exactly the same word sequence as setting it once. -/
theorem C5_set_idempotent (bm : SimpleBitmap) (i : Nat) :
    (bm.set i).set i = bm.set i := by
  have hlen : word_position i < (bm.set i).bits.length := by
    rw [set_bits_length]; omega
  apply SimpleBitmap.eq_of_bits
  rw [set_bits_eq (bm.set i) i, grown_of_lt _ _ hlen,
    set_bits_getD bm i (word_position i), if_pos rfl,
    Nat.or_assoc, Nat.or_self, set_bits_eq bm i, List.set_set, grown_getD]

/-- Claim C6 states union is commutative with respect to the presence of
every index; the code violates it.  With `a = new.set 32` (words
`[0, 1]`) and `b = new.set 0` (words `[1]`), `union(a,b)` has words `[1]`
(the left word `a.bits[1]` is dropped by `iter::zip`) while `union(b,a)`
has words `[1, 1]` (the right tail is copied intact), so the two unions
disagree at index 32. -/
theorem C6_union_commutative_fails :
    ((SimpleBitmap.new.set 32).bitor (SimpleBitmap.new.set 0)).get 32 = false ∧
    ((SimpleBitmap.new.set 0).bitor (SimpleBitmap.new.set 32)).get 32 = true := by
  decide

/-- Claim C7: the addressing arithmetic of `set` and `get` is correct:
`index &&& 0b11111` equals `index % 32`, the bit position is below 32,
and `index = word_position * 32 + bit_position`, so the pair uniquely
addresses the bit. -/
theorem C7_addressing (index : Nat) :
    bit_position index = index % 32 ∧
    bit_position index < 32 ∧
    index = word_position index * 32 + bit_position index :=
  ⟨bit_position_eq_mod index, bit_position_lt index, word_position_mul_add index⟩

/-- Claim C8: a fresh bitmap has zero words; `set` never shrinks the word
sequence; and when `word_position index` is at or beyond the current
length, `set` grows the sequence to exactly `word_position index + 1`
words, every newly created word other than the target reads zero, and the
target word holds exactly the freshly set bit. -/
theorem C8_growth (bm : SimpleBitmap) (index : Nat) :
    SimpleBitmap.new.bits.length = 0 ∧
    bm.bits.length ≤ (bm.set index).bits.length ∧
    (bm.bits.length ≤ word_position index →
      (bm.set index).bits.length = word_position index + 1 ∧
      (∀ n, bm.bits.length ≤ n → n ≠ word_position index →
        (bm.set index).bits.getD n 0 = 0) ∧
      (bm.set index).bits.getD (word_position index) 0 = 1 <<< bit_position index) := by
  refine ⟨rfl, by rw [set_bits_length]; omega, fun h => ⟨?_, fun n hn hne => ?_, ?_⟩⟩
  · rw [set_bits_length]; omega
  · rw [set_bits_getD, if_neg hne, getD_out bm.bits n hn]
  · rw [set_bits_getD, if_pos rfl, getD_out bm.bits (word_position index) h, Nat.zero_or]

theorem C8_growth_witness :
    SimpleBitmap.new.bits.length = 0 ∧
    SimpleBitmap.new.bits.length ≤ (SimpleBitmap.new.set 40).bits.length ∧
    ((SimpleBitmap.new.set 40).bits.length = word_position 40 + 1 ∧
     (SimpleBitmap.new.set 40).bits.getD 0 0 = 0 ∧
     (SimpleBitmap.new.set 40).bits.getD (word_position 40) 0 = 1 <<< bit_position 40) :=
  ⟨(C8_growth SimpleBitmap.new 40).1, (C8_growth SimpleBitmap.new 40).2.1,
   ((C8_growth SimpleBitmap.new 40).2.2 (by decide)).1,
   ((C8_growth SimpleBitmap.new 40).2.2 (by decide)).2.1 0 (by decide) (by decide),
   ((C8_growth SimpleBitmap.new 40).2.2 (by decide)).2.2⟩

/-- Claim C9: `set` changes at most the word at `word_position index`:
every other position reads unchanged (with missing and freshly appended
words reading zero), every pre-existing word other than the target keeps
its exact stored value, and when the target word is already in bounds the
length is unchanged. -/
theorem C9_set_frame (bm : SimpleBitmap) (index n : Nat) :
    (n ≠ word_position index →
      (bm.set index).bits.getD n 0 = bm.bits.getD n 0) ∧
    (n ≠ word_position index → n < bm.bits.length →
      (bm.set index).bits[n]? = bm.bits[n]?) ∧
    (word_position index < bm.bits.length →
      (bm.set index).bits.length = bm.bits.length) := by
  refine ⟨fun h => ?_, fun h hl => set_bits_getElem?_ne bm index n h hl, fun h => ?_⟩
  · rw [set_bits_getD, if_neg h]
  · rw [set_bits_length]; omega

theorem C9_set_frame_witness :
    ((⟨[5, 7]⟩ : SimpleBitmap).set 3).bits.getD 1 0 =
      (⟨[5, 7]⟩ : SimpleBitmap).bits.getD 1 0 ∧
    ((⟨[5, 7]⟩ : SimpleBitmap).set 3).bits[1]? = (⟨[5, 7]⟩ : SimpleBitmap).bits[1]? ∧
    ((⟨[5, 7]⟩ : SimpleBitmap).set 3).bits.length = (⟨[5, 7]⟩ : SimpleBitmap).bits.length :=
  ⟨(C9_set_frame ⟨[5, 7]⟩ 3 1).1 (by decide),
   (C9_set_frame ⟨[5, 7]⟩ 3 1).2.1 (by decide) (by decide),
   (C9_set_frame ⟨[5, 7]⟩ 3 1).2.2 (by decide)⟩

/-- Claim C10 states union is associative with respect to the presence of
every index; the code violates it.  With `a = new.set 32` (words
`[0, 1]`), `b = new.set 0` (words `[1]`) and `c = new` (empty),
`union(union(a,b), c)` has no words (`union(a,b) = [1]`, then its only
word is dropped by `iter::zip` against the empty operand) while
`union(a, union(b,c))` has words `[1]`, so the two sides disagree at
index 0. -/
theorem C10_union_associative_fails :
    (((SimpleBitmap.new.set 32).bitor (SimpleBitmap.new.set 0)).bitor
      SimpleBitmap.new).get 0 = false ∧
    ((SimpleBitmap.new.set 32).bitor ((SimpleBitmap.new.set 0).bitor
      SimpleBitmap.new)).get 0 = true := by
  decide
